import Mathlib

/-!
# Verification of the DemandScan orchestration layer

Shallow embedding of the client-side agent-orchestration logic of the
DemandScan repository, and proofs of the spec's testable properties.

The embedded code comes from:
* `src/data/agents.js` — the static agent registry;
* `src/pages/OpportunityEvaluation.jsx` (the first of the concatenated page
  versions, lines 1–1630) — `AGENT_SEQUENCE`, `AGENT_DEPENDENCIES`,
  `runNextAgentInSequence`, `startAnalysisSequence` (the "ULTRA-SIMPLIFIED"
  loop wired to the Analyze button), `stopAnalysisSequence`,
  `processWithAgent` (its credential guard), `handleReset`,
  `handleContentChange`, `handleViewResult`;
* `src/pages/GradeTranscripts.jsx` — `runAnalysisRef` (retry logic),
  `checkApiKey`, the automatic-progression effect, `resetAnalysisState`.

Wall-clock timestamps (`new Date().toISOString()`) and `console.log`
debug output are elided: no claim mentions them.  React state updates
that use functional updaters are modelled as immediate state transitions
(the source uses functional `set` callbacks precisely so that updates
apply to the latest state).
-/

namespace DemandScan

/-- Agent identifiers, in the declared order of `src/data/agents.js`. -/
inductive AgentId where
  | longContextChunking
  | jtbd
  | jtbdGains
  | painExtractor
  | problemAwareness
  | needsAnalysis
  | demandAnalyst
  | opportunityQualification
  | finalReport
  deriving DecidableEq, Repr, Fintype

open AgentId

/-- One registry entry of `src/data/agents.js`: the identifier together with
its `requiresPreviousAgent` field.  In the source that field is absent or a
single string; `runNextAgentInSequence` and `handleRunSingleAgent` normalise
it with `Array.isArray(x) ? x : [x]`, so it is embedded as
`Option (List AgentId)` (`none` = field absent). -/
structure Agent where
  id : AgentId
  requiresPreviousAgent : Option (List AgentId)
  deriving DecidableEq, Repr

/-- The static registry `agents` of `src/data/agents.js`, in declared order
(display metadata elided; no claim mentions it). -/
def agents : List Agent :=
  [ ⟨longContextChunking, none⟩,
    ⟨jtbd, some [longContextChunking]⟩,
    ⟨jtbdGains, some [jtbd]⟩,
    ⟨painExtractor, some [jtbdGains]⟩,
    ⟨problemAwareness, some [painExtractor]⟩,
    ⟨needsAnalysis, some [longContextChunking]⟩,
    ⟨demandAnalyst, some [needsAnalysis]⟩,
    ⟨opportunityQualification, some [demandAnalyst]⟩,
    ⟨finalReport, some [problemAwareness]⟩ ]

/-- `AGENT_SEQUENCE` of `OpportunityEvaluation.jsx` (line 208). -/
def AGENT_SEQUENCE : List AgentId :=
  [longContextChunking, needsAnalysis, demandAnalyst,
   opportunityQualification, finalReport]

/-- `AGENT_DEPENDENCIES` of `OpportunityEvaluation.jsx` (line 217).
Declared in the page but never read by any of its functions. -/
def AGENT_DEPENDENCIES : AgentId → Option (List AgentId)
  | needsAnalysis => some [longContextChunking]
  | demandAnalyst => some [needsAnalysis]
  | opportunityQualification => some [demandAnalyst]
  | finalReport => some [needsAnalysis, demandAnalyst, opportunityQualification]
  | _ => none

/-- The `visibleAgentSequence` local of `runNextAgentInSequence` (line 771). -/
def visibleAgentSequence : List AgentId :=
  [needsAnalysis, demandAnalyst, opportunityQualification, finalReport]

/-- Status values stored in `agentProgress[agentId].status`. -/
inductive RunStatus where
  | loading
  | success
  | error
  deriving DecidableEq, Repr

/-- One `agentProgress` record (`updateAgentProgress` / the inline
`setAgentProgress` calls): numeric progress plus status.  The `error`
message field and timestamp are elided (no claim inspects them). -/
structure ProgressRec where
  progress : Nat
  status : RunStatus
  deriving DecidableEq, Repr

/-- A result payload stored in `localAnalysisResults[agentId]`.  The source
payloads are ad-hoc JSON objects; the fields below are the ones the
orchestrator and the claims inspect (`completed`, the error message carried
by the chunking fallback, the summary strings, chunk lists and the processed
transcript threaded between agents).  Remaining static dummy fields
(`immediateNeeds`, `recommendations`, …) are constant text and are elided. -/
structure AnalysisResult where
  completed : Bool
  summary : String
  error : Option String
  processedTranscript : Option String
  finalSummary : Option String
  chunks : List String
  deriving DecidableEq, Repr

namespace NextAgent

/-- Result of one `runNextAgentInSequence` scan (lines 754–872): which agent
(if any) the orchestrator invokes next, or how it halts. -/
inductive Decision where
  /-- `isSequenceRunning` was false: the function returns at once. -/
  | notRunning
  /-- every visible agent has a stored result: `setIsSequenceRunning(false)`. -/
  | allDone
  /-- the scanned agent's prerequisites are missing, and `missing` is the
  first missing prerequisite whose own prerequisites are stored:
  `processWithAgent(missing)` is invoked. -/
  | runPrereq (missing : AgentId) (next : AgentId)
  /-- no runnable prerequisite exists: toast
  "Cannot run … Missing required prerequisite analyses." and
  `setIsSequenceRunning(false)`. -/
  | fatalMissingPrereq (next : AgentId)
  /-- `processWithAgent(next)` is invoked. -/
  | run (next : AgentId)
  deriving DecidableEq, Repr

/-- Whether one agent can be run according to the check at lines 818–821:
either the registry entry has no `requiresPreviousAgent`, or all its
prerequisites have stored results.  (`completed` is membership in
`Object.keys(localAnalysisResults)`.) -/
def prereqsMet (completed : AgentId → Bool) (a : AgentId) : Bool :=
  match (agents.find? (fun ag => ag.id = a)).bind (·.requiresPreviousAgent) with
  | none => true
  | some ps => ps.all completed

/-- The selection logic of `runNextAgentInSequence` (lines 754–872),
abstracted over `completed` = presence in `localAnalysisResults`.
Faithful details: the scan runs over `visibleAgentSequence` (not the full
registry); the special `nextAgentIndex === 0 && completed('needsAnalysis')`
skip (lines 784–786) is kept although it is unreachable; prerequisite
satisfaction is presence of a stored result, not a `success` status. -/
def decide (isSequenceRunning : Bool) (completed : AgentId → Bool) : Decision :=
  if !isSequenceRunning then .notRunning
  else
    match visibleAgentSequence.findIdx? (fun a => !completed a) with
    | none => .allDone
    | some i =>
      let i := if i = 0 && completed needsAnalysis then 1 else i
      match visibleAgentSequence.get? i with
      | none => .allDone
      | some next =>
        match (agents.find? (fun ag => ag.id = next)).bind
            (·.requiresPreviousAgent) with
        | none => .run next
        | some prereqs =>
          if prereqs.all completed then .run next
          else
            match (prereqs.filter (fun p => !completed p)).find?
                (prereqsMet completed) with
            | some m => .runPrereq m next
            | none => .fatalMissingPrereq next

/-- `nextRunnable` as the SPEC words it (§4.2 / §8, claim C6): "scans the
registry in declared order; returns the first agent whose AgentRun is not
`success` and whose prerequisites are all `success`".  Success of an agent
is abstracted as the boolean `succeeded`. -/
def nextRunnableSpec (succeeded : AgentId → Bool) : Option AgentId :=
  (agents.find? (fun ag =>
      !succeeded ag.id &&
      (ag.requiresPreviousAgent.getD []).all succeeded)).map (·.id)

end NextAgent

/-- The JS string id of an agent (used in the `Dummy result for ${agentId}`
template). -/
def agentName : AgentId → String
  | longContextChunking => "longContextChunking"
  | jtbd => "jtbd"
  | jtbdGains => "jtbdGains"
  | painExtractor => "painExtractor"
  | problemAwareness => "problemAwareness"
  | needsAnalysis => "needsAnalysis"
  | demandAnalyst => "demandAnalyst"
  | opportunityQualification => "opportunityQualification"
  | finalReport => "finalReport"

/-- Output of `processWithLongContextChunking` as consumed at lines
1058–1070 (`chunkSummaries`, `sectionSummaries` and `metadata` are stored
but never read again; elided). -/
structure ChunkOutput where
  chunks : List String
  finalSummary : String
  deriving DecidableEq, Repr

/-- The component state of `OpportunityEvaluation` that the orchestration
functions read and write.  `results`/`progress` are modelled as association
lists (JS objects keyed by agent id); `analyzing`/`finished` model the JS
`Set`s; `mirror` models the `analysisResult_${agentId}` localStorage entries
written at lines 424 and 1257.  The `finishedAgentsArray` /
`analyzingAgentsArray` localStorage mirrors are kept in sync with the sets by
dedicated effects and are not modelled separately. -/
structure EvalState where
  transcript : String
  results : List (AgentId × AnalysisResult)
  progress : List (AgentId × ProgressRec)
  analyzing : List AgentId
  finished : List AgentId
  currentRunning : Option AgentId
  isSequenceRunning : Bool
  isOptimizing : Bool
  optimizationProgress : Nat
  hasAnalyzed : Bool
  showResult : Option AgentId
  mirror : List (AgentId × AnalysisResult)
  deriving Repr

/-- Insert/overwrite one key of an association list (a JS object write).
Lookups read the most recent write, exactly as on a JS object; shadowed
entries are unobservable because the embedded code only ever point-reads
these maps (`localAnalysisResults[id]`, `Object.keys` membership,
`agentProgress[id]`). -/
def setKey {β : Type} (m : List (AgentId × β)) (a : AgentId) (v : β) :
    List (AgentId × β) :=
  (a, v) :: m

/-- Add an element to a JS `Set` modelled as a duplicate-free list. -/
def setAdd (l : List AgentId) (a : AgentId) : List AgentId :=
  if a ∈ l then l else a :: l

/-- One primitive state update performed by `startAnalysisSequence` or by
`stopAnalysisSequence`.  Each constructor is a single `setX` call of the
source; `stop` is the body of `stopAnalysisSequence` (line 1298). -/
inductive Action where
  | setShowResult (o : Option AgentId)
  | setAnalyzing (l : List AgentId)
  | removeAnalyzing (a : AgentId)
  | clearResults
  | setResult (a : AgentId) (r : AnalysisResult)
  | clearProgress
  | setProgress (a : AgentId) (p : ProgressRec)
  | addFinished (a : AgentId)
  | setCurrentRunning (o : Option AgentId)
  | setSeqRunning (b : Bool)
  | setOptimizing (b : Bool)
  | setOptProgress (n : Nat)
  | setHasAnalyzed (b : Bool)
  | mirrorWrite (a : AgentId) (r : AnalysisResult)
  | stop

/-- Semantics of one primitive update. -/
def Action.apply : Action → EvalState → EvalState
  | .setShowResult o, s => { s with showResult := o }
  | .setAnalyzing l, s => { s with analyzing := l }
  | .removeAnalyzing a, s => { s with analyzing := s.analyzing.erase a }
  | .clearResults, s => { s with results := [] }
  | .setResult a r, s => { s with results := setKey s.results a r }
  | .clearProgress, s => { s with progress := [] }
  | .setProgress a p, s => { s with progress := setKey s.progress a p }
  | .addFinished a, s => { s with finished := setAdd s.finished a }
  | .setCurrentRunning o, s => { s with currentRunning := o }
  | .setSeqRunning b, s => { s with isSequenceRunning := b }
  | .setOptimizing b, s => { s with isOptimizing := b }
  | .setOptProgress n, s => { s with optimizationProgress := n }
  | .setHasAnalyzed b, s => { s with hasAnalyzed := b }
  | .mirrorWrite a r, s => { s with mirror := setKey s.mirror a r }
  | .stop, s => { s with isSequenceRunning := false }

/-- The base dummy result of line 1158:
`{ completed: true, timestamp, summary: Dummy result for ${agentId} }`. -/
def baseDummy (a : AgentId) : AnalysisResult :=
  { completed := true
    summary := "Dummy result for " ++ agentName a
    error := none
    processedTranscript := none
    finalSummary := none
    chunks := [] }

/-- JS truthiness filter for an optional string field
(`undefined` and `''` are falsy). -/
def optNonempty : Option String → Option String
  | none => none
  | some s => if s = "" then none else some s

/-- `createNeedsAnalysisResult(base, transcriptSummary)` (lines 951–986):
spreads the base and sets `processedTranscript` (the remaining fields are
constant text, elided). -/
def createNeedsAnalysisResult (base : AnalysisResult) (ts : Option String) :
    AnalysisResult :=
  { base with processedTranscript := ts }

/-- `createDemandAnalystResult(base, transcriptSummary)` (lines 875–948):
spreads the base and sets `processedTranscript` (the remaining fields are
constant text, elided). -/
def createDemandAnalystResult (base : AnalysisResult) (ts : String) :
    AnalysisResult :=
  { base with processedTranscript := some ts }

/-- The per-agent dummy result built at lines 1157–1235.  `closure` is the
`localAnalysisResults` value captured by the `useCallback` closure when
`startAnalysisSequence` was created — NOT the live state: the reads at lines
1167 and 1195–1196 see the captured value, which the loop's own
`setLocalAnalysisResults` calls never update. -/
def dummyResultFor (a : AgentId) (transcript : String)
    (closure : List (AgentId × AnalysisResult)) : AnalysisResult :=
  match a with
  | needsAnalysis =>
    match closure.lookup longContextChunking with
    | none =>
      createNeedsAnalysisResult (baseDummy a)
        (some "Using raw transcript as fallback due to missing chunking results")
    | some r => createNeedsAnalysisResult (baseDummy a) r.finalSummary
  | demandAnalyst =>
    let ts :=
      match optNonempty ((closure.lookup longContextChunking).bind
          (·.finalSummary)) with
      | some s => s
      | none =>
        match optNonempty ((closure.lookup needsAnalysis).bind
            (·.processedTranscript)) with
        | some s => s
        | none => if transcript = "" then "No transcript available" else transcript
    createDemandAnalystResult (baseDummy a) ts
  | longContextChunking =>
    { baseDummy a with chunks := ["Sample chunk 1", "Sample chunk 2"] }
  | _ => baseDummy a

/-- The real chunking result stored at lines 1058–1070. -/
def chunkPayload (out : ChunkOutput) : AnalysisResult :=
  { completed := true
    summary := out.finalSummary
    error := none
    processedTranscript := none
    finalSummary := some out.finalSummary
    chunks := out.chunks }

/-- The fallback result built in the `catch` at lines 1076–1085 when the
chunking call throws: marked `completed: true` and carrying the error
message. -/
def chunkFallback (msg : String) : AnalysisResult :=
  { completed := true
    summary := "Error optimizing transcript: " ++ msg
    error := some msg
    processedTranscript := none
    finalSummary := some ("Failed to process transcript: " ++ msg)
    chunks := [] }

/-- The updates of the `agentId === 'longContextChunking'` part of the loop
body (lines 1027–1111) followed by the common part (1113–1273), in source
order.  `chunk` is the outcome of the awaited external chunking call
(the implementation of `processWithLongContextChunking` lives outside the
component; its intermediate progress-callback values are elided).  Note the
generic dummy result overwrites the real/fallback chunking payload at line
1238, and the chunking agent is never added to `analyzingAgents` (the guard
at line 1115). -/
def chunkingIterActions (chunk : Except String ChunkOutput) : List Action :=
  [ .setOptimizing true, .setOptProgress 5 ]
  ++ (match chunk with
      | .ok out => [ .setResult longContextChunking (chunkPayload out) ]
      | .error msg =>
        [ .setResult longContextChunking (chunkFallback msg),
          .setOptProgress 100 ])
  ++ [ .addFinished longContextChunking,
       .setOptProgress 100,
       .setOptimizing false,
       .setCurrentRunning (some longContextChunking),
       .setProgress longContextChunking ⟨10, .loading⟩,
       .setProgress longContextChunking ⟨25, .loading⟩,
       .setProgress longContextChunking ⟨50, .loading⟩,
       .setProgress longContextChunking ⟨75, .loading⟩,
       .setProgress longContextChunking ⟨100, .loading⟩,
       .setResult longContextChunking
         (dummyResultFor longContextChunking "" []),
       .addFinished longContextChunking,
       .setProgress longContextChunking ⟨100, .success⟩,
       .removeAnalyzing longContextChunking ]

/-- The loop-body updates for a visible agent (lines 1113–1273), in source
order: wholesale-replace the analyzing set with the singleton (line 1120),
synthetic progress, store the dummy result, record it as finished, mark
success, mirror to `analysisResult_${agentId}` (line 1257), show it, and
remove it from the analyzing set just before the next iteration. -/
def visibleIterActions (a : AgentId) (transcript : String)
    (closure : List (AgentId × AnalysisResult)) : List Action :=
  [ .setAnalyzing [a],
    .setCurrentRunning (some a),
    .setProgress a ⟨15, .loading⟩,
    .setProgress a ⟨10, .loading⟩,
    .setProgress a ⟨25, .loading⟩,
    .setProgress a ⟨50, .loading⟩,
    .setProgress a ⟨75, .loading⟩,
    .setProgress a ⟨100, .loading⟩,
    .setResult a (dummyResultFor a transcript closure),
    .addFinished a,
    .setProgress a ⟨100, .success⟩,
    .mirrorWrite a (dummyResultFor a transcript closure),
    .setShowResult (some a),
    .removeAnalyzing a ]

/-- All updates of one `startAnalysisSequence` run past the empty-transcript
guard (lines 995–1285): the initial resets, `setIsSequenceRunning(true)`,
the five loop iterations, and the final flags.  Crucially, NO update in this
list reads `isSequenceRunning`: the loop never checks the stop flag. -/
def startSeqBody (transcript : String)
    (closure : List (AgentId × AnalysisResult))
    (chunk : Except String ChunkOutput) : List Action :=
  [ .setShowResult none, .setAnalyzing [], .clearResults, .clearProgress,
    .setHasAnalyzed false, .setSeqRunning true ]
  ++ chunkingIterActions chunk
  ++ visibleIterActions needsAnalysis transcript closure
  ++ visibleIterActions demandAnalyst transcript closure
  ++ visibleIterActions opportunityQualification transcript closure
  ++ visibleIterActions finalReport transcript closure
  ++ [ .setHasAnalyzed true, .setSeqRunning false ]

/-- `startAnalysisSequence` as invoked by the Analyze button (lines
989–1294): with no transcript it only toasts and performs no state update;
otherwise it runs the body. -/
def startAnalysisSequence (transcript : String)
    (closure : List (AgentId × AnalysisResult))
    (chunk : Except String ChunkOutput) : List Action :=
  if transcript = "" then [] else startSeqBody transcript closure chunk

/-- The state trace of an action list from an initial state: the initial
state followed by the state after each update. -/
def trace (s : EvalState) (l : List Action) : List EvalState :=
  List.scanl (fun s a => Action.apply a s) s l

/-- `l'` is `l` with occurrences of `stopAnalysisSequence` (the user's Stop)
interleaved at arbitrary await points. -/
inductive WithStops : List Action → List Action → Prop where
  | nil : WithStops [] []
  | cons {a : Action} {l l' : List Action} :
      WithStops l l' → WithStops (a :: l) (a :: l')
  | stop {l l' : List Action} :
      WithStops l l' → WithStops l (.stop :: l')

theorem WithStops.refl : ∀ l : List Action, WithStops l l
  | [] => .nil
  | _ :: l => .cons (WithStops.refl l)

theorem WithStops.append {l₁ l₂ l₁' l₂' : List Action}
    (h₁ : WithStops l₁ l₁') (h₂ : WithStops l₂ l₂') :
    WithStops (l₁ ++ l₂) (l₁' ++ l₂') := by
  induction h₁ with
  | nil => simpa using h₂
  | cons _ ih => exact .cons ih
  | stop _ ih => exact .stop ih

theorem WithStops.mem_of_mem {l l' : List Action} (h : WithStops l l') :
    ∀ a ∈ l', a ∈ l ∨ a = .stop := by
  induction h with
  | nil => intro a ha; cases ha
  | cons _ ih =>
    intro a ha
    rcases List.mem_cons.mp ha with rfl | ha'
    · exact .inl (List.mem_cons_self _ _)
    · rcases ih a ha' with h' | h'
      · exact .inl (List.mem_cons_of_mem _ h')
      · exact .inr h'
  | stop _ ih =>
    intro a ha
    rcases List.mem_cons.mp ha with rfl | ha'
    · exact .inr rfl
    · exact ih a ha'

theorem trace_nil (s : EvalState) : trace s [] = [s] := rfl

theorem trace_cons (s : EvalState) (a : Action) (l : List Action) :
    trace s (a :: l) = s :: trace (a.apply s) l := rfl

/-- Invariance along a trace: a property preserved by every action of the
list holds at every state of the trace. -/
theorem trace_invariant {P : EvalState → Prop} :
    ∀ (l : List Action) (s : EvalState), P s →
      (∀ a ∈ l, ∀ t, P t → P (a.apply t)) → ∀ u ∈ trace s l, P u := by
  intro l
  induction l with
  | nil =>
    intro s hs _ u hu
    rw [trace_nil] at hu
    rcases List.mem_singleton.mp hu with rfl
    exact hs
  | cons a l ih =>
    intro s hs hl u hu
    rw [trace_cons] at hu
    rcases List.mem_cons.mp hu with rfl | hu'
    · exact hs
    · exact ih (a.apply s) (hl a (List.mem_cons_self _ _) s hs)
        (fun b hb => hl b (List.mem_cons_of_mem _ hb)) u hu'

/-- The projection of the state that ignores the stop flag: two states with
the same `core` differ at most in `isSequenceRunning`. -/
def core (s : EvalState) : EvalState := { s with isSequenceRunning := true }

theorem core_stop (s : EvalState) : core (Action.stop.apply s) = core s := rfl

theorem core_apply_congr (a : Action) {s t : EvalState}
    (h : core s = core t) : core (a.apply s) = core (a.apply t) := by
  cases s; cases t
  simp only [core, EvalState.mk.injEq, and_true, true_and] at h
  obtain ⟨rfl, rfl, rfl, rfl, rfl, rfl, rfl, rfl, rfl, rfl, rfl⟩ := h
  cases a <;> rfl

/-- Every state reached by a run with user stops interleaved agrees, up to
the stop flag, with a state of the stop-free run: the loop body never reads
`isSequenceRunning`, so pressing Stop changes nothing but the flag. -/
theorem withStops_trace {l l' : List Action} (h : WithStops l l') :
    ∀ s t : EvalState, core s = core t →
      ∀ u ∈ trace t l', ∃ v ∈ trace s l, core v = core u := by
  induction h with
  | nil =>
    intro s t hst u hu
    rw [trace_nil] at hu
    rcases List.mem_singleton.mp hu with rfl
    exact ⟨s, List.mem_singleton.mpr rfl, hst⟩
  | @cons a l l' _ ih =>
    intro s t hst u hu
    rw [trace_cons] at hu
    rcases List.mem_cons.mp hu with rfl | hu'
    · exact ⟨s, by rw [trace_cons]; exact List.mem_cons_self _ _, hst⟩
    · obtain ⟨v, hv, hc⟩ :=
        ih (a.apply s) (a.apply t) (core_apply_congr a hst) u hu'
      exact ⟨v, by rw [trace_cons]; exact List.mem_cons_of_mem _ hv, hc⟩
  | @stop l l' _ ih =>
    intro s t hst u hu
    rw [trace_cons] at hu
    rcases List.mem_cons.mp hu with rfl | hu'
    · exact ⟨s, List.mem_of_mem_head? (by cases l <;> rfl), hst⟩
    · exact ih s (Action.stop.apply t) (by rw [core_stop]; exact hst) u hu'

/-- The state of a freshly mounted `OpportunityEvaluation` component holding
a transcript: every map empty, every flag down.  The Analyze button (line
1612) is disabled while `analyzingAgents.size > 0`, so the sequence always
starts from a state whose analyzing set is empty. -/
def freshEval (tr : String) : EvalState :=
  ⟨tr, [], [], [], [], none, false, false, 0, false, none, []⟩

/-- Whether one primitive update can enlarge the analyzing set past one
element: only a wholesale `setAnalyzingAgents` with a larger set could. -/
def analyzingBounded : Action → Bool
  | .setAnalyzing l => decide (l.length ≤ 1)
  | _ => true

theorem analyzingBounded_apply {a : Action} (h : analyzingBounded a = true)
    {s : EvalState} (hs : s.analyzing.length ≤ 1) :
    (a.apply s).analyzing.length ≤ 1 := by
  cases a with
  | setAnalyzing l => exact of_decide_eq_true h
  | removeAnalyzing x =>
    exact le_trans (List.Sublist.length_le (List.erase_sublist x s.analyzing)) hs
  | _ => exact hs

/-- Every `setAnalyzingAgents` call of `startAnalysisSequence` writes the
empty set or a singleton. -/
theorem startSeqBody_analyzingBounded (tr : String)
    (cl : List (AgentId × AnalysisResult)) (ch : Except String ChunkOutput) :
    (startSeqBody tr cl ch).all analyzingBounded = true := by
  cases ch <;> rfl

/-- The agents preceding `a` in the page's fixed `AGENT_SEQUENCE`. -/
def seqBefore (a : AgentId) : List AgentId :=
  AGENT_SEQUENCE.takeWhile (fun b => b ≠ a)

/-- Dependency check over one state: whichever agent is currently in the
analyzing set, every agent preceding it in the page's fixed sequence has a
stored result. -/
def depCheck (s : EvalState) : Bool :=
  s.analyzing.all fun a =>
    (seqBefore a).all fun b => (s.results.lookup b).isSome

/-- Every state of the stop-free run satisfies `depCheck`, for both chunking
outcomes, starting from any state with an empty analyzing set. -/
theorem startSeqBody_depCheck (tr : String)
    (cl res mir : List (AgentId × AnalysisResult))
    (prog : List (AgentId × ProgressRec)) (fin : List AgentId)
    (cur sr : Option AgentId) (b₁ b₂ b₃ : Bool) (n : Nat)
    (ch : Except String ChunkOutput) :
    ((trace ⟨tr, res, prog, [], fin, cur, b₁, b₂, n, b₃, sr, mir⟩
        (startSeqBody tr cl ch)).all depCheck) = true := by
  cases ch <;> rfl

/-- C1 (counterexample).  The claim as stated is false on the code: the
registry (`src/data/agents.js`) declares `problemAwareness` as the
prerequisite of `finalReport`, yet the automatic sequence puts `finalReport`
into the running state (it is the sole member of the analyzing set, with a
loading progress record) while `problemAwareness` has no stored result —
indeed no AgentRun — at all. -/
theorem dependency_gating_counterexample :
    ((agents.find? (fun ag => ag.id = finalReport)).bind
        (·.requiresPreviousAgent) = some [problemAwareness]) ∧
    ∃ u ∈ trace (freshEval "t") (startSeqBody "t" [] (.ok ⟨["c"], "s"⟩)),
      u.analyzing = [finalReport] ∧
      u.progress.lookup finalReport = some ⟨15, .loading⟩ ∧
      u.results.lookup problemAwareness = none := by
  decide

/-- C1 (amended).  Dependency gating as the code actually enforces it: in
every state reachable by running the automatic analysis sequence (from any
start state with an empty analyzing set, for either chunking outcome, with
user stops interleaved arbitrarily), an agent is in the analyzing (running)
state only when every agent preceding it in the page's fixed
`AGENT_SEQUENCE` has a stored result — a stored result, not a `success`
run: a chunking error fallback satisfies the check equally. -/
theorem dependency_gating_sequence_order (tr : String)
    (cl res mir : List (AgentId × AnalysisResult))
    (prog : List (AgentId × ProgressRec)) (fin : List AgentId)
    (cur sr : Option AgentId) (b₁ b₂ b₃ : Bool) (n : Nat)
    (ch : Except String ChunkOutput) {l' : List Action}
    (h : WithStops (startSeqBody tr cl ch) l') :
    ∀ u ∈ trace ⟨tr, res, prog, [], fin, cur, b₁, b₂, n, b₃, sr, mir⟩ l',
      ∀ a ∈ u.analyzing, ∀ b ∈ seqBefore a, (u.results.lookup b).isSome := by
  intro u hu a ha b hb
  obtain ⟨v, hv, hc⟩ := withStops_trace h _ _ rfl u hu
  have hdep : depCheck v = true :=
    List.all_eq_true.mp
      (startSeqBody_depCheck tr cl res mir prog fin cur sr b₁ b₂ b₃ n ch) v hv
  have hA : v.analyzing = u.analyzing := by
    simpa [core] using congrArg EvalState.analyzing hc
  have hR : v.results = u.results := by
    simpa [core] using congrArg EvalState.results hc
  have := List.all_eq_true.mp hdep a (hA ▸ ha)
  have := List.all_eq_true.mp this b hb
  exact hR ▸ this

/-- Witness for C1 (amended): the dependency-order invariant evaluated on
the concrete stop-free run from a fresh state. -/
theorem dependency_gating_sequence_order_witness :
    ((trace (freshEval "t") (startSeqBody "t" [] (.ok ⟨["c"], "s"⟩))).all
      fun u => u.analyzing.all fun a =>
        (seqBefore a).all fun b => (u.results.lookup b).isSome) = true :=
  List.all_eq_true.mpr fun u hu =>
    List.all_eq_true.mpr fun a ha =>
      List.all_eq_true.mpr fun b hb =>
        dependency_gating_sequence_order "t" [] [] [] [] [] none none
          false false false 0 (.ok ⟨["c"], "s"⟩)
          (WithStops.refl _) u hu a ha b hb

/-- C2.  Single-flight: in every state reachable by running the automatic
analysis sequence — from any start state with an empty analyzing set (the
Analyze button is disabled otherwise), for either chunking outcome, with
user stops interleaved at arbitrary points — the set of currently-analyzing
agents has at most one element. -/
theorem single_flight (tr : String) (cl : List (AgentId × AnalysisResult))
    (ch : Except String ChunkOutput) {l' : List Action}
    (h : WithStops (startSeqBody tr cl ch) l') {s₀ : EvalState}
    (h₀ : s₀.analyzing = []) :
    ∀ u ∈ trace s₀ l', u.analyzing.length ≤ 1 := by
  refine trace_invariant l' s₀ (by simp [h₀]) ?_
  intro a ha t ht
  rcases h.mem_of_mem a ha with hm | rfl
  · exact analyzingBounded_apply
      (List.all_eq_true.mp (startSeqBody_analyzingBounded tr cl ch) a hm) ht
  · exact ht

/-- Witness for C2: the single-flight bound evaluated on the concrete
stop-free run from a fresh state. -/
theorem single_flight_witness :
    ((trace (freshEval "t") (startSeqBody "t" [] (.ok ⟨["c"], "s"⟩))).all
      fun u => decide (u.analyzing.length ≤ 1)) = true :=
  List.all_eq_true.mpr fun u hu =>
    decide_eq_true
      (single_flight "t" [] (.ok ⟨["c"], "s"⟩) (WithStops.refl _) rfl u hu)

/-- C4 (failing input).  `stopAnalysisSequence` only clears
`isSequenceRunning` — but the loop of `startAnalysisSequence` (the sequence
wired to the Analyze button) never reads that flag, so agents keep starting
after a stop.  Concretely: in the run on transcript "t" with the stop
pressed right after the `needsAnalysis` iteration (after the first 36
updates), the very next state has the flag down, and the state after it has
`demandAnalyst` newly in the analyzing set while the flag is still down: a
subsequent agent starts after the user stopped the sequence. -/
theorem stop_flag_ignored_by_running_sequence :
    ∃ l', WithStops (startSeqBody "t" [] (.ok ⟨["c"], "s"⟩)) l' ∧
      ((trace (freshEval "t") l').get? 37).map (·.isSequenceRunning)
        = some false ∧
      ((trace (freshEval "t") l').get? 38).map
        (fun u => (u.analyzing, u.isSequenceRunning))
        = some ([demandAnalyst], false) := by
  refine ⟨(startSeqBody "t" [] (.ok ⟨["c"], "s"⟩)).take 36 ++
    .stop :: (startSeqBody "t" [] (.ok ⟨["c"], "s"⟩)).drop 36, ?_, by decide, by decide⟩
  have h := WithStops.append
    (WithStops.refl ((startSeqBody "t" [] (.ok ⟨["c"], "s"⟩)).take 36))
    (WithStops.stop (WithStops.refl
      ((startSeqBody "t" [] (.ok ⟨["c"], "s"⟩)).drop 36)))
  rwa [List.take_append_drop] at h

set_option maxHeartbeats 3200000 in
/-- C10.  If the chunking call throws with message `msg` during the
automatic sequence, then along the run: (1) a fallback result marked
`completed: true` and carrying the error message is stored for
`longContextChunking`, its optimization progress is 100, it is in the
finished-agents set, and at that very state the dependency check of
`runNextAgentInSequence` for `needsAnalysis` is already satisfied — the
failure is indistinguishable from success to it; (2) the sequence continues
all the way to putting `finalReport` into the analyzing state; (3) the run
ends with every agent of the sequence holding a stored result and a
100/success progress record, the sequence flag cleared — it never halts. -/
theorem chunking_failure_tolerated (tr msg : String)
    (cl : List (AgentId × AnalysisResult)) :
    (∃ u ∈ trace (freshEval tr) (startSeqBody tr cl (.error msg)),
        u.results.lookup longContextChunking = some (chunkFallback msg) ∧
        (chunkFallback msg).completed = true ∧
        (chunkFallback msg).error = some msg ∧
        u.optimizationProgress = 100 ∧
        longContextChunking ∈ u.finished ∧
        NextAgent.prereqsMet (fun x => (u.results.lookup x).isSome)
          needsAnalysis = true) ∧
    (∃ u ∈ trace (freshEval tr) (startSeqBody tr cl (.error msg)),
        u.analyzing = [finalReport]) ∧
    (∃ u ∈ trace (freshEval tr) (startSeqBody tr cl (.error msg)),
        (!u.isSequenceRunning && u.hasAnalyzed &&
          AGENT_SEQUENCE.all fun a => (u.results.lookup a).isSome &&
            u.progress.lookup a == some ⟨100, .success⟩) = true) := by
  refine ⟨⟨_, List.get?_mem (rfl : (trace (freshEval tr)
      (startSeqBody tr cl (.error msg))).get? 11 = some _),
      rfl, rfl, rfl, rfl, ?_, rfl⟩, ?_, ?_⟩
  · exact List.mem_singleton.mpr rfl
  · have h : ((trace (freshEval tr) (startSeqBody tr cl (.error msg))).any
        fun u => u.analyzing == [finalReport]) = true := rfl
    obtain ⟨u, hu, hp⟩ := List.any_eq_true.mp h
    exact ⟨u, hu, eq_of_beq hp⟩
  · have h : ((trace (freshEval tr) (startSeqBody tr cl (.error msg))).any
        fun u => !u.isSequenceRunning && u.hasAnalyzed &&
          AGENT_SEQUENCE.all fun a => (u.results.lookup a).isSome &&
            u.progress.lookup a == some ⟨100, .success⟩) = true := rfl
    obtain ⟨u, hu, hp⟩ := List.any_eq_true.mp h
    exact ⟨u, hu, hp⟩

set_option maxRecDepth 8000 in
/-- C5.  When every agent of the page's sequence has a stored result, the
scan of `runNextAgentInSequence` finds no next agent: it takes the
`nextAgentIndex === -1` branch, which clears the sequence-running flag and
returns without invoking any agent (`Decision.allDone`). -/
theorem all_success_terminates (completed : AgentId → Bool)
    (h : ∀ a ∈ AGENT_SEQUENCE, completed a = true) :
    NextAgent.decide true completed = .allDone := by
  revert h; revert completed; decide

/-- Witness for C5: the all-results session. -/
theorem all_success_terminates_witness :
    (∀ a ∈ AGENT_SEQUENCE, (fun _ => true : AgentId → Bool) a = true) ∧
    NextAgent.decide true (fun _ => true) = .allDone :=
  ⟨by decide, all_success_terminates (fun _ => true) (by decide)⟩

/-- C6 (counterexample).  The claim's selection rule — first agent in the
REGISTRY's declared order that is not `success` with all prerequisites
`success` — disagrees with the code: in the session where exactly
`longContextChunking` has succeeded, the registry rule picks `jtbd`
(second entry of `agents.js`), while `runNextAgentInSequence` scans only its
own `visibleAgentSequence` and invokes `needsAnalysis`. -/
theorem nextRunnable_selection_counterexample :
    NextAgent.nextRunnableSpec (fun a => a == longContextChunking)
      = some jtbd ∧
    NextAgent.decide true (fun a => a == longContextChunking)
      = .run needsAnalysis ∧
    jtbd ≠ needsAnalysis := by
  decide

/-- The amended selection rule, written from the corrected wording: scan the
page's `visibleAgentSequence` (not the registry) for the first agent without
a stored result; if there is none the sequence is done; otherwise, if the
registry prerequisites of that agent all have stored results it is run, and
if not, the first missing prerequisite whose own prerequisites have stored
results is run instead (fatal configuration error when none is runnable). -/
def nextRunnableAmended (completed : AgentId → Bool) : NextAgent.Decision :=
  match visibleAgentSequence.find? (fun a => !completed a) with
  | none => .allDone
  | some next =>
    if NextAgent.prereqsMet completed next then .run next
    else
      match (((agents.find? (fun ag => ag.id = next)).bind
          (·.requiresPreviousAgent)).getD []).filter (fun p => !completed p)
          |>.find? (NextAgent.prereqsMet completed) with
      | some m => .runPrereq m next
      | none => .fatalMissingPrereq next

set_option maxRecDepth 8000 in
/-- C6 (amended).  For every session, the running `runNextAgentInSequence`
scan agrees with the amended rule; in particular, in a session with no
stored results at all (the claim's scenario), the prerequisite
`longContextChunking` is executed — never the dependent `needsAnalysis`. -/
theorem nextAgent_selection_amended :
    (∀ completed : AgentId → Bool,
      NextAgent.decide true completed = nextRunnableAmended completed) ∧
    NextAgent.decide true (fun _ => false)
      = .runPrereq longContextChunking needsAnalysis := by
  constructor
  · decide
  · decide

/-- The state after all updates of an action list. -/
def runEnd (s : EvalState) (l : List Action) : EvalState :=
  l.foldl (fun s a => a.apply s) s

/-- `handleReset` (lines 363–413): every piece of component state is
returned to its initial value and every enumerated `opportunity*`
localStorage key is removed (the state and those keys being mirrors of one
another), then the page reloads.  The per-agent `analysisResult_${agentId}`
preservation entries written by `handleViewResult` (line 424) and by the
sequence loop (line 1257) are NOT among the removed keys: they survive the
reset. -/
def handleReset (s : EvalState) : EvalState :=
  { freshEval "" with mirror := s.mirror }

/-- `handleContentChange` (lines 1303–1311): submitting new transcript
content clears `analyzingAgents`, `agentProgress`, `localAnalysisResults`
and `hasAnalyzed` and stores the new transcript.  It clears nothing else:
`finishedAgents` (by design — the comment at line 245 says it is only
cleared by Reset), `showResult`, `currentRunningAgent`,
`isSequenceRunning` and the `analysisResult_*` mirror entries all keep
their values.  (It also nulls the never-read `currentAgent` variable,
which is not modelled.) -/
def handleContentChange (content : String) (s : EvalState) : EvalState :=
  { s with analyzing := [], progress := [], results := [],
           hasAnalyzed := false, transcript := content }

/-- C9 (counterexample).  Run the automatic sequence to completion on
transcript "old", then: (a) submitting a new transcript leaves
`needsAnalysis` in the finished-agents set, keeps it as the shown result,
and keeps its persisted `analysisResult_needsAnalysis` mirror entry — state
and results of the previous transcript survive wholesale replacement; (b) an
explicit reset also leaves that persisted mirror entry, so the persisted
mirror entries do not become empty. -/
theorem lifecycle_counterexample :
    (needsAnalysis ∈ (handleContentChange "new"
        (runEnd (freshEval "old")
          (startSeqBody "old" [] (.ok ⟨["c"], "s"⟩)))).finished ∧
      (handleContentChange "new"
        (runEnd (freshEval "old")
          (startSeqBody "old" [] (.ok ⟨["c"], "s"⟩)))).showResult
        = some finalReport ∧
      ((handleContentChange "new"
        (runEnd (freshEval "old")
          (startSeqBody "old" [] (.ok ⟨["c"], "s"⟩)))).mirror.lookup
            needsAnalysis).isSome = true) ∧
    ((handleReset
        (runEnd (freshEval "old")
          (startSeqBody "old" [] (.ok ⟨["c"], "s"⟩)))).mirror.lookup
            needsAnalysis).isSome = true := by
  decide

/-- C9 (amended).  Lifecycle as the code implements it: an explicit reset
returns every modelled component field (transcript, results, progress,
analyzing, finished, flags, shown result) to its initial value but leaves
the persisted `analysisResult_*` mirror entries untouched; submitting a new
transcript replaces the transcript and clears results, progress, analyzing
and `hasAnalyzed`, while the finished-agents set, the shown result, the
sequence flag and the persisted mirror entries survive from the previous
transcript. -/
theorem lifecycle_reset_and_replace (s : EvalState) (content : String) :
    ((handleReset s).transcript = "" ∧ (handleReset s).results = [] ∧
      (handleReset s).progress = [] ∧ (handleReset s).analyzing = [] ∧
      (handleReset s).finished = [] ∧ (handleReset s).hasAnalyzed = false ∧
      (handleReset s).showResult = none ∧
      (handleReset s).isSequenceRunning = false ∧
      (handleReset s).mirror = s.mirror) ∧
    ((handleContentChange content s).transcript = content ∧
      (handleContentChange content s).results = [] ∧
      (handleContentChange content s).progress = [] ∧
      (handleContentChange content s).analyzing = [] ∧
      (handleContentChange content s).hasAnalyzed = false ∧
      (handleContentChange content s).finished = s.finished ∧
      (handleContentChange content s).showResult = s.showResult ∧
      (handleContentChange content s).isSequenceRunning
        = s.isSequenceRunning ∧
      (handleContentChange content s).mirror = s.mirror) :=
  ⟨⟨rfl, rfl, rfl, rfl, rfl, rfl, rfl, rfl, rfl⟩,
   ⟨rfl, rfl, rfl, rfl, rfl, rfl, rfl, rfl, rfl⟩⟩

namespace Persist

/-!
Persistence round-trip (claim C7).  The `useLocalStorage` hook that mirrors
the component state into browser local storage is imported from
`src/hooks/useLocalStorage`, which is not under `src/`; per the spec (§6)
the persistent local state is "a simple string-keyed get/set/remove
interface" that durably records AnalysisSession and AgentRun state, written
as JSON text (`handleViewResult`, which IS in src, round-trips through
`JSON.stringify`/`JSON.parse` at lines 424 and 434).  Modelled from the
spec: the store is a string-keyed map of strings, and the serialization is a
concrete injective JSON-like text format for the statuses and payloads with
a verified parser.  Every definition below is executable and the round-trip
is proved for arbitrary payload strings (with the JSON string escaping of
quote and backslash).
-/

/-- Escape one character for a quoted string literal. -/
def escChar (c : Char) : List Char :=
  if c = '"' ∨ c = '\\' then ['\\', c] else [c]

def escape : List Char → List Char
  | [] => []
  | c :: rest => escChar c ++ escape rest

/-- A quoted, escaped string literal. -/
def encStr (s : String) : List Char := '"' :: (escape s.data ++ ['"'])

/-- Consume an escaped string body up to its closing quote; the flag says
whether the previous character was an unconsumed backslash. -/
def parseStrAux : Bool → List Char → Option (List Char × List Char)
  | _, [] => none
  | true, c :: rest => (parseStrAux false rest).map fun p => (c :: p.1, p.2)
  | false, c :: rest =>
    if c = '"' then some ([], rest)
    else if c = '\\' then parseStrAux true rest
    else (parseStrAux false rest).map fun p => (c :: p.1, p.2)

/-- Consume a quoted string literal. -/
def parseStr (l : List Char) : Option (String × List Char) :=
  match l with
  | '"' :: rest => (parseStrAux false rest).map fun p => (⟨p.1⟩, p.2)
  | _ => none

theorem parseStrAux_escape (l rest : List Char) :
    parseStrAux false (escape l ++ '"' :: rest) = some (l, rest) := by
  induction l with
  | nil =>
    simp only [escape, List.nil_append]
    simp [parseStrAux]
  | cons c l ih =>
    by_cases hc : c = '"' ∨ c = '\\'
    · have h1 : escChar c = ['\\', c] := by simp [escChar, hc]
      simp only [escape, h1, List.cons_append, List.append_assoc,
        List.nil_append]
      simp [parseStrAux, ih]
    · push_neg at hc
      have h1 : escChar c = [c] := by simp [escChar, hc.1, hc.2]
      simp only [escape, h1, List.cons_append, List.append_assoc,
        List.nil_append]
      simp [parseStrAux, hc.1, hc.2, ih]

theorem parseStr_encStr (s : String) (rest : List Char) :
    parseStr (encStr s ++ rest) = some (s, rest) := by
  have h : encStr s ++ rest = '"' :: (escape s.data ++ '"' :: rest) := by
    simp [encStr]
  rw [h]
  simp [parseStr, parseStrAux_escape]

/-- The decimal digit character of a value below ten (code point 48 + k). -/
def digitChar (k : Nat) : Char := Char.ofNat (48 + k % 10)

/-- The value of a decimal digit character, if it is one. -/
def digitVal (c : Char) : Option Nat :=
  if 48 ≤ c.toNat ∧ c.toNat ≤ 57 then some (c.toNat - 48) else none

/-- Decimal digits of a number, most significant first. -/
def natChars (n : Nat) : List Char :=
  if _h : n < 10 then [digitChar n]
  else natChars (n / 10) ++ [digitChar (n % 10)]
  termination_by n
  decreasing_by exact Nat.div_lt_self (by omega) (by omega)

/-- A number is written as its digits terminated by a semicolon. -/
def encNat (n : Nat) : List Char := natChars n ++ [';']

def parseNatAux : List Char → Nat → Option (Nat × List Char)
  | [], _ => none
  | c :: rest, acc =>
    if c = ';' then some (acc, rest)
    else
      match digitVal c with
      | some d => parseNatAux rest (acc * 10 + d)
      | none => none

def parseNat (l : List Char) : Option (Nat × List Char) := parseNatAux l 0

theorem digitVal_digitChar (k : Nat) (h : k < 10) :
    digitVal (digitChar k) = some k := by
  interval_cases k <;> rfl

theorem digitChar_ne_semi (k : Nat) (h : k < 10) : digitChar k ≠ ';' := by
  interval_cases k <;> decide

theorem parseNatAux_natChars (n : Nat) :
    ∀ (acc : Nat) (suffix : List Char),
      parseNatAux (natChars n ++ suffix) acc
        = parseNatAux suffix (acc * 10 ^ (natChars n).length + n) := by
  induction n using Nat.strong_induction_on with
  | _ n ih =>
    intro acc suffix
    by_cases h : n < 10
    · rw [natChars, dif_pos h]
      simp [parseNatAux, digitChar_ne_semi n h, digitVal_digitChar n h]
    · rw [natChars, dif_neg h]
      rw [List.append_assoc, List.cons_append,
        ih (n / 10) (Nat.div_lt_self (by omega) (by omega))]
      have hm : n % 10 < 10 := Nat.mod_lt _ (by omega)
      simp only [parseNatAux, List.nil_append, digitChar_ne_semi _ hm,
        if_neg (digitChar_ne_semi _ hm), digitVal_digitChar _ hm,
        List.length_append, List.length_cons, List.length_nil]
      have : (acc * 10 ^ (natChars (n / 10)).length + n / 10) * 10 + n % 10
          = acc * 10 ^ ((natChars (n / 10)).length + (0 + 1)) + n := by
        rw [pow_succ]
        have := Nat.div_add_mod n 10
        ring_nf
        omega
      rw [this]
      simp

theorem parseNat_encNat (n : Nat) (rest : List Char) :
    parseNat (encNat n ++ rest) = some (n, rest) := by
  rw [parseNat, encNat, List.append_assoc, parseNatAux_natChars]
  simp [parseNatAux]

def encBool (b : Bool) : List Char := if b then ['t'] else ['f']

def parseBool : List Char → Option (Bool × List Char)
  | 't' :: rest => some (true, rest)
  | 'f' :: rest => some (false, rest)
  | _ => none

theorem parseBool_encBool (b : Bool) (rest : List Char) :
    parseBool (encBool b ++ rest) = some (b, rest) := by
  cases b <;> rfl

def encOptStr : Option String → List Char
  | none => ['n']
  | some s => 'j' :: encStr s

def parseOptStr : List Char → Option (Option String × List Char)
  | 'n' :: rest => some (none, rest)
  | 'j' :: rest => (parseStr rest).map fun p => (some p.1, p.2)
  | _ => none

theorem parseOptStr_encOptStr (o : Option String) (rest : List Char) :
    parseOptStr (encOptStr o ++ rest) = some (o, rest) := by
  cases o with
  | none => rfl
  | some s =>
    show parseOptStr ('j' :: (encStr s ++ rest)) = _
    simp [parseOptStr, parseStr_encStr]

/-- A string list is written as its length followed by the literals. -/
def encStrList (l : List String) : List Char :=
  encNat l.length ++ l.flatMap encStr

def parseStrs : Nat → List Char → Option (List String × List Char)
  | 0, l => some ([], l)
  | k + 1, l =>
    (parseStr l).bind fun p =>
      (parseStrs k p.2).map fun q => (p.1 :: q.1, q.2)

theorem parseStrs_encoded (l : List String) (rest : List Char) :
    parseStrs l.length (l.flatMap encStr ++ rest) = some (l, rest) := by
  induction l with
  | nil => rfl
  | cons s l ih =>
    simp only [List.flatMap_cons, List.length_cons, List.append_assoc]
    simp [parseStrs, parseStr_encStr, ih]

def parseStrList (l : List Char) : Option (List String × List Char) :=
  (parseNat l).bind fun p => parseStrs p.1 p.2

theorem parseStrList_encStrList (l : List String) (rest : List Char) :
    parseStrList (encStrList l ++ rest) = some (l, rest) := by
  rw [parseStrList, encStrList, List.append_assoc, parseNat_encNat]
  simp [parseStrs_encoded]

/-- Reverse lookup of the agent-id key strings under which the JSON objects
are stored. -/
def agentIdOfName (s : String) : Option AgentId :=
  (agents.find? (fun ag => agentName ag.id = s)).map (·.id)

theorem agentIdOfName_agentName (a : AgentId) :
    agentIdOfName (agentName a) = some a := by
  cases a <;> rfl

def encAgentId (a : AgentId) : List Char := encStr (agentName a)

def parseAgentId (l : List Char) : Option (AgentId × List Char) :=
  (parseStr l).bind fun p => (agentIdOfName p.1).map fun a => (a, p.2)

theorem parseAgentId_encAgentId (a : AgentId) (rest : List Char) :
    parseAgentId (encAgentId a ++ rest) = some (a, rest) := by
  rw [parseAgentId, encAgentId, parseStr_encStr]
  simp [agentIdOfName_agentName]

/-- The status strings stored in `agentProgress` records. -/
def statusName : RunStatus → String
  | .loading => "loading"
  | .success => "success"
  | .error => "error"

def statusOfName (s : String) : Option RunStatus :=
  if s = "loading" then some .loading
  else if s = "success" then some .success
  else if s = "error" then some .error
  else none

theorem statusOfName_statusName (st : RunStatus) :
    statusOfName (statusName st) = some st := by
  cases st <;> rfl

def encStatus (st : RunStatus) : List Char := encStr (statusName st)

def parseStatus (l : List Char) : Option (RunStatus × List Char) :=
  (parseStr l).bind fun p => (statusOfName p.1).map fun st => (st, p.2)

theorem parseStatus_encStatus (st : RunStatus) (rest : List Char) :
    parseStatus (encStatus st ++ rest) = some (st, rest) := by
  rw [parseStatus, encStatus, parseStr_encStr]
  simp [statusOfName_statusName]

/-- One serialized result payload: its fields in declaration order. -/
def encResult (r : AnalysisResult) : List Char :=
  encBool r.completed ++ encStr r.summary ++ encOptStr r.error
    ++ encOptStr r.processedTranscript ++ encOptStr r.finalSummary
    ++ encStrList r.chunks

def parseResult (l : List Char) : Option (AnalysisResult × List Char) :=
  (parseBool l).bind fun pc =>
    (parseStr pc.2).bind fun ps =>
      (parseOptStr ps.2).bind fun pe =>
        (parseOptStr pe.2).bind fun pp =>
          (parseOptStr pp.2).bind fun pf =>
            (parseStrList pf.2).map fun pch =>
              (⟨pc.1, ps.1, pe.1, pp.1, pf.1, pch.1⟩, pch.2)

theorem parseResult_encResult (r : AnalysisResult) (rest : List Char) :
    parseResult (encResult r ++ rest) = some (r, rest) := by
  rw [parseResult, encResult]
  simp [List.append_assoc, parseBool_encBool, parseStr_encStr,
    parseOptStr_encOptStr, parseStrList_encStrList]

/-- One serialized progress record. -/
def encProgressRec (p : ProgressRec) : List Char :=
  encNat p.progress ++ encStatus p.status

def parseProgressRec (l : List Char) : Option (ProgressRec × List Char) :=
  (parseNat l).bind fun pn =>
    (parseStatus pn.2).map fun ps => (⟨pn.1, ps.1⟩, ps.2)

theorem parseProgressRec_encProgressRec (p : ProgressRec) (rest : List Char) :
    parseProgressRec (encProgressRec p ++ rest) = some (p, rest) := by
  rw [parseProgressRec, encProgressRec, List.append_assoc, parseNat_encNat]
  simp [parseStatus_encStatus]

/-- A keyed map (a JS object) is serialized as its entry count followed by
the key/value pairs in order. -/
def encEntries {β : Type} (encV : β → List Char)
    (m : List (AgentId × β)) : List Char :=
  encNat m.length ++ m.flatMap fun p => encAgentId p.1 ++ encV p.2

def parseEntries {β : Type}
    (parseV : List Char → Option (β × List Char)) :
    Nat → List Char → Option (List (AgentId × β) × List Char)
  | 0, l => some ([], l)
  | k + 1, l =>
    (parseAgentId l).bind fun pa =>
      (parseV pa.2).bind fun pv =>
        (parseEntries parseV k pv.2).map fun pm =>
          ((pa.1, pv.1) :: pm.1, pm.2)

def parseMap {β : Type}
    (parseV : List Char → Option (β × List Char)) (l : List Char) :
    Option (List (AgentId × β) × List Char) :=
  (parseNat l).bind fun p => parseEntries parseV p.1 p.2

theorem parseEntries_encoded {β : Type} (encV : β → List Char)
    (parseV : List Char → Option (β × List Char))
    (hV : ∀ v rest, parseV (encV v ++ rest) = some (v, rest))
    (m : List (AgentId × β)) (rest : List Char) :
    parseEntries parseV m.length
      ((m.flatMap fun p => encAgentId p.1 ++ encV p.2) ++ rest)
      = some (m, rest) := by
  induction m with
  | nil => rfl
  | cons p m ih =>
    obtain ⟨a, v⟩ := p
    simp only [List.flatMap_cons, List.length_cons, List.append_assoc]
    simp [parseEntries, parseAgentId_encAgentId, hV, ih]

theorem parseMap_encEntries {β : Type} (encV : β → List Char)
    (parseV : List Char → Option (β × List Char))
    (hV : ∀ v rest, parseV (encV v ++ rest) = some (v, rest))
    (m : List (AgentId × β)) (rest : List Char) :
    parseMap parseV (encEntries encV m ++ rest) = some (m, rest) := by
  rw [parseMap, encEntries, List.append_assoc, parseNat_encNat]
  simp [parseEntries_encoded encV parseV hV]

/-- The persistent local store of §6: a string-keyed map of strings.
`set` is `localStorage.setItem` (latest write wins on read). -/
def Store : Type := List (String × String)

def storeSet (st : Store) (k v : String) : Store := (k, v) :: st

def storeGet (st : Store) (k : String) : Option String :=
  ((st : List (String × String)).find? (fun p => p.1 = k)).map (·.2)

/-- Persist the AgentRun statuses (`opportunityAgentProgress`) and result
payloads (`opportunityResults`) of a session into the store, as the
`useLocalStorage`-backed state does on every update. -/
def persistSession (s : EvalState) (st : Store) : Store :=
  storeSet
    (storeSet st "opportunityResults" ⟨encEntries encResult s.results⟩)
    "opportunityAgentProgress" ⟨encEntries encProgressRec s.progress⟩

/-- Reload the statuses and payloads from the store (what a full page reload
does when the component state rehydrates). -/
def loadSession (st : Store) :
    Option (List (AgentId × AnalysisResult) × List (AgentId × ProgressRec)) :=
  (storeGet st "opportunityResults").bind fun rs =>
    (storeGet st "opportunityAgentProgress").bind fun ps =>
      (parseMap parseResult rs.data).bind fun pr =>
        (parseMap parseProgressRec ps.data).bind fun pp =>
          match pr.2, pp.2 with
          | [], [] => some (pr.1, pp.1)
          | _, _ => none

/-- C7.  Round-trip: persisting a session's AgentRun result payloads and
progress records (statuses) to the string-keyed persistent store and then
reloading reproduces them exactly, for every session and every prior store
content — arbitrary payload strings included (quote and backslash are
escaped). -/
theorem session_roundtrip (s : EvalState) (st : Store) :
    loadSession (persistSession s st) = some (s.results, s.progress) := by
  have hr : storeGet (persistSession s st) "opportunityResults"
      = some ⟨encEntries encResult s.results⟩ := by
    simp [persistSession, storeGet, storeSet, List.find?]
  have hp : storeGet (persistSession s st) "opportunityAgentProgress"
      = some ⟨encEntries encProgressRec s.progress⟩ := by
    simp [persistSession, storeGet, storeSet, List.find?]
  rw [loadSession, hr, hp]
  simp only [Option.some_bind]
  have e1 : parseMap parseResult (encEntries encResult s.results)
      = some (s.results, []) := by
    simpa using
      parseMap_encEntries encResult parseResult parseResult_encResult
        s.results []
  have e2 : parseMap parseProgressRec (encEntries encProgressRec s.progress)
      = some (s.progress, []) := by
    simpa using
      parseMap_encEntries encProgressRec parseProgressRec
        parseProgressRec_encProgressRec s.progress []
  rw [e1, e2]
  rfl

end Persist

/-- Entry classification of `processWithAgent`
(`OpportunityEvaluation.jsx` lines 529–537). -/
inductive ProcEntry where
  /-- `!apiKey && agentId !== 'longContextChunking'`: toast
  "API key is missing. Please add it in Settings.", clean up, return null —
  no external call, no retry. -/
  | blockedMissingKey
  /-- execution proceeds past the credential guard. -/
  | proceeds
  deriving DecidableEq, Repr

/-- The credential guard of `processWithAgent` (line 532).  `apiKey` comes
from `useLocalStorage('llmApiKey', '')`, so a missing key is the falsy
empty string. -/
def processWithAgentEntry (apiKey : String) (a : AgentId) : ProcEntry :=
  if apiKey = "" ∧ a ≠ longContextChunking then .blockedMissingKey
  else .proceeds

namespace Grade

/-- Agent identifiers of the `GradeTranscripts` page, as keyed in its
`initialAgentStates`. -/
inductive GAgent where
  | jtbd
  | curse
  | problemFit
  | priming
  | recommendations
  deriving DecidableEq, Repr, Fintype

/-- Modelled from the spec: `AGENT_SEQUENCE` is imported from
`src/utils/analysisTypes.js`, which is not under `src/`.  The member set is
fixed by `initialAgentStates` and the `switch` of `runAnalysisRef`
(`jtbd`, `curse`, `problemFit`, `priming`, `recommendations`), the order by
the data flow (`problemFit` consumes `jtbd`/`curse` results,
`recommendations` consumes all four and is the final agent whose completion
compiles `finalResults`). -/
def gAgentSequence : List GAgent :=
  [.jtbd, .curse, .problemFit, .priming, .recommendations]

def gAgentName : GAgent → String
  | .jtbd => "jtbd"
  | .curse => "curse"
  | .problemFit => "problemFit"
  | .priming => "priming"
  | .recommendations => "recommendations"

/-- One per-agent record of `agentStates` (`initialAgentStates`, line 14).
The opaque result payload is abstracted to its presence; `showResults` is
never read by the orchestration logic and is elided. -/
structure GAgentRun where
  isAnalyzing : Bool
  progress : Nat
  hasResults : Bool
  retryCount : Nat
  deriving DecidableEq, Repr

def initialAgentRun : GAgentRun :=
  { isAnalyzing := false, progress := 0, hasResults := false, retryCount := 0 }

/-- The component state of `GradeTranscripts` used by the analysis logic,
plus two instrumentation fields: `toasts` records the user-visible
notifications emitted, `callsMade` counts external analysis calls started.
The `stateRef` mirror is identified with the state itself (its syncing
effect copies every update into the ref). -/
structure GState where
  agentStates : GAgent → GAgentRun
  isAnalyzing : Bool
  showResult : Bool
  analysisResultSet : Bool
  currentAnalysisIndex : Nat
  isSequenceRunning : Bool
  toasts : List String
  callsMade : Nat

/-- Point update of one agent's record. -/
def updateAgent (st : GState) (a : GAgent) (f : GAgentRun → GAgentRun) :
    GState :=
  { st with agentStates := fun x =>
      if x = a then f (st.agentStates x) else st.agentStates x }

/-- `resetAnalysisState` (lines 116–124): all agent records back to initial,
index 0, every flag down, result cleared.  The instrumentation fields
(`toasts`, `callsMade`) are record-keeping and are not state. -/
def resetAnalysisState (st : GState) : GState :=
  { st with agentStates := fun _ => initialAgentRun,
            currentAnalysisIndex := 0, isSequenceRunning := false,
            isAnalyzing := false, showResult := false,
            analysisResultSet := false }

/-- String prefix test, as `apiKey.startsWith('sk-')` computes it (embedded
over the character lists so that it evaluates by reduction). -/
def strStartsWith (s pre : String) : Bool := pre.data.isPrefixOf s.data

/-- The toast produced by `checkApiKey` (lines 91–113) when validation
fails (`none` = the key passes all three checks).  `localStorage.getItem`
returns `null` for a missing key; both `null` and the empty string are
falsy for the `!apiKey` check. -/
def apiKeyToast : Option String → Option String
  | none => some "OpenAI API key not found. Please set your API key in the settings."
  | some k =>
    if k = "" then
      some "OpenAI API key not found. Please set your API key in the settings."
    else if ¬ strStartsWith k "sk-" then
      some "Invalid API key format. Please check your settings."
    else if k.length < 40 then
      some "Invalid API key length. Please check your settings."
    else none

/-- `checkApiKey` returns true exactly when no validation toast fires. -/
def checkApiKey (key : Option String) : Bool := (apiKeyToast key).isNone

/-- Outcome of one awaited external analysis call inside the `try` of
`runAnalysisRef.current`. -/
inductive CallOutcome where
  /-- the call resolves with results. -/
  | ok
  /-- the call throws with a message containing "API key" (the special case
  at lines 229–233). -/
  | apiKeyError (msg : String)
  /-- the call throws with any other (transient) error. -/
  | fail
  deriving DecidableEq, Repr

/-- The toast of the entry guard at line 156. -/
def exhaustToastMsg (a : GAgent) (maxRetries : Nat) : String :=
  "Failed to complete " ++ gAgentName a ++ " analysis after "
    ++ toString maxRetries ++ " attempts"

/-- The toast of the final retry failure at line 238. -/
def failToastMsg (a : GAgent) : String :=
  "Failed to complete " ++ gAgentName a ++ " analysis. Please try again."

/-- `runAnalysisRef.current` (lines 139–243), abstracted over the configured
retry bound (`MAX_RETRIES` comes from `src/utils/analysisTypes.js`, which is
not under `src/`; the claim is parametric in it) and over the list of
outcomes of the successive external calls.  Faithful structure: a failed
`checkApiKey` resets everything and returns (the duplicated second check is
unreachable and collapsed); a `retryCount` already at the bound halts the
sequence with a toast; otherwise the record is marked analyzing with
`retryCount + 1` and the call is made; `ok` stores results at progress 100
(and the last agent of the sequence also compiles the final results and
stops the sequence); an "API key" error resets everything; another error
retries after the fixed delay while `retryCount < MAX_RETRIES`, else halts
the sequence with a toast.  An empty outcome list is a call that never
resolves. -/
def runAnalysis (maxRetries : Nat) (key : Option String) (a : GAgent) :
    List CallOutcome → GState → GState
  | outcomes, st =>
    match apiKeyToast key with
    | some t => resetAnalysisState { st with toasts := st.toasts ++ [t] }
    | none =>
      if (st.agentStates a).retryCount ≥ maxRetries then
        { st with isSequenceRunning := false,
                  toasts := st.toasts ++ [exhaustToastMsg a maxRetries] }
      else
        let st₁ := updateAgent st a fun r =>
          { r with isAnalyzing := true, progress := 0,
                   retryCount := r.retryCount + 1 }
        match outcomes with
        | [] => st₁
        | o :: rest =>
          let st₂ := { st₁ with callsMade := st₁.callsMade + 1 }
          match o with
          | .ok =>
            let st₃ := updateAgent st₂ a fun r =>
              { r with hasResults := true, progress := 100,
                       isAnalyzing := false }
            if a = .recommendations then
              { st₃ with analysisResultSet := true, showResult := true,
                         isSequenceRunning := false, isAnalyzing := false }
            else st₃
          | .apiKeyError msg =>
            resetAnalysisState { st₂ with toasts := st₂.toasts ++ [msg] }
          | .fail =>
            if (st₂.agentStates a).retryCount < maxRetries then
              runAnalysis maxRetries key a rest st₂
            else
              { st₂ with isSequenceRunning := false, isAnalyzing := false,
                         toasts := st₂.toasts ++ [failToastMsg a] }

@[simp] theorem updateAgent_same (st : GState) (a : GAgent)
    (f : GAgentRun → GAgentRun) :
    (updateAgent st a f).agentStates a = f (st.agentStates a) := by
  simp [updateAgent]

theorem updateAgent_other (st : GState) (a x : GAgent)
    (f : GAgentRun → GAgentRun) (h : x ≠ a) :
    (updateAgent st a f).agentStates x = st.agentStates x := by
  simp [updateAgent, h]

/-- One failed attempt that leaves retries to spare: the record is marked
analyzing with the retry counter bumped, one more call is made, and the
recursion continues on the remaining outcomes. -/
def failStep (st : GState) (a : GAgent) : GState :=
  { updateAgent st a (fun r =>
      { r with isAnalyzing := true, progress := 0,
               retryCount := r.retryCount + 1 }) with
    callsMade := st.callsMade + 1 }

theorem runAnalysis_cons_fail {N : Nat} {key : Option String}
    (hkey : apiKeyToast key = none) {a : GAgent} {st : GState}
    {rest : List CallOutcome}
    (hlt : (st.agentStates a).retryCount + 1 < N) :
    runAnalysis N key a (.fail :: rest) st
      = runAnalysis N key a rest (failStep st a) := by
  rw [runAnalysis, hkey]
  have hge : ¬ (st.agentStates a).retryCount ≥ N := by omega
  rw [if_neg hge]
  simp only [updateAgent_same, failStep]
  rw [if_pos (by simpa using hlt)]
  rfl

theorem runAnalysis_final_fail {N : Nat} {key : Option String}
    (hkey : apiKeyToast key = none) {a : GAgent} {st : GState}
    {rest : List CallOutcome}
    (heq : (st.agentStates a).retryCount + 1 = N) :
    runAnalysis N key a (.fail :: rest) st
      = { failStep st a with
          isSequenceRunning := false, isAnalyzing := false,
          toasts := st.toasts ++ [failToastMsg a] } := by
  rw [runAnalysis, hkey]
  have hge : ¬ (st.agentStates a).retryCount ≥ N := by omega
  rw [if_neg hge]
  simp only [updateAgent_same]
  rw [if_neg (by simp; omega)]
  rfl

@[simp] theorem failStep_agent (st : GState) (a : GAgent) :
    (failStep st a).agentStates a
      = { isAnalyzing := true, progress := 0,
          hasResults := (st.agentStates a).hasResults,
          retryCount := (st.agentStates a).retryCount + 1 } := by
  simp [failStep]

theorem failStep_other (st : GState) (a x : GAgent) (h : x ≠ a) :
    (failStep st a).agentStates x = st.agentStates x := by
  simp [failStep, updateAgent, h]

/-- Auxiliary: `k` consecutive failures that exhaust the retry bound.  If
the agent's record is `k` retries away from the bound, running the analysis
against `k` failing calls halts the sequence: the bound is reached, progress
never reaches 100, results never appear, exactly `k` calls are made, the
failure toast fires, and no other agent's record is touched. -/
theorem runAnalysis_fail_exhaust (N : Nat) (key : Option String)
    (hkey : apiKeyToast key = none) (a : GAgent) :
    ∀ (k : Nat) (st : GState), 0 < k →
      (st.agentStates a).retryCount + k = N →
      ((runAnalysis N key a (List.replicate k .fail) st).agentStates a
          = { isAnalyzing := true, progress := 0,
              hasResults := (st.agentStates a).hasResults,
              retryCount := N }) ∧
      (∀ x, x ≠ a →
        (runAnalysis N key a (List.replicate k .fail) st).agentStates x
          = st.agentStates x) ∧
      (runAnalysis N key a (List.replicate k .fail) st).isSequenceRunning
          = false ∧
      (runAnalysis N key a (List.replicate k .fail) st).isAnalyzing = false ∧
      (runAnalysis N key a (List.replicate k .fail) st).currentAnalysisIndex
          = st.currentAnalysisIndex ∧
      (runAnalysis N key a (List.replicate k .fail) st).callsMade
          = st.callsMade + k ∧
      (runAnalysis N key a (List.replicate k .fail) st).toasts
          = st.toasts ++ [failToastMsg a] := by
  intro k
  induction k with
  | zero => intro st h0 _; omega
  | succ k ih =>
    intro st _ hsum
    rw [List.replicate_succ]
    by_cases hk : k = 0
    · subst hk
      rw [runAnalysis_final_fail hkey (by omega)]
      refine ⟨?_, ?_, rfl, rfl, rfl, rfl, rfl⟩
      · simp; omega
      · intro x hx
        simpa using failStep_other st a x hx
    · rw [runAnalysis_cons_fail hkey (by omega)]
      obtain ⟨c1, c2, c3, c4, c5, c6, c7⟩ := ih (failStep st a)
        (by omega) (by simp; omega)
      refine ⟨?_, ?_, c3, c4, ?_, ?_, ?_⟩
      · rw [c1]; simp
      · intro x hx
        rw [c2 x hx, failStep_other st a x hx]
      · rw [c5]; simp [failStep, updateAgent]
      · rw [c6]; simp [failStep, updateAgent]; omega
      · rw [c7]; simp [failStep, updateAgent]

/-- Auxiliary: `k` consecutive failures with retries to spare.  While the
retry counter stays below the bound, each failure schedules another attempt
and the sequence-running flag is untouched (the final attempt's call is
still pending). -/
theorem runAnalysis_fail_pending (N : Nat) (key : Option String)
    (hkey : apiKeyToast key = none) (a : GAgent) :
    ∀ (k : Nat) (st : GState), (st.agentStates a).retryCount + k < N →
      ((runAnalysis N key a (List.replicate k .fail) st).agentStates a
        = { isAnalyzing := true, progress := 0,
            hasResults := (st.agentStates a).hasResults,
            retryCount := (st.agentStates a).retryCount + k + 1 }) ∧
      (runAnalysis N key a (List.replicate k .fail) st).isSequenceRunning
        = st.isSequenceRunning := by
  intro k
  induction k with
  | zero =>
    intro st h
    rw [List.replicate_zero, runAnalysis, hkey, if_neg (by omega)]
    exact ⟨by simp, rfl⟩
  | succ k ih =>
    intro st h
    rw [List.replicate_succ, runAnalysis_cons_fail hkey (by omega)]
    obtain ⟨c1, c2⟩ := ih (failStep st a) (by simp; omega)
    constructor
    · rw [c1]; simp; omega
    · rw [c2]; simp [failStep, updateAgent]

/-- The state of `GradeTranscripts` right after `handleAnalyze` passed its
checks and started the sequence (lines 275–287): all agent records initial,
index 0, sequence running. -/
def freshGState : GState :=
  { agentStates := fun _ => initialAgentRun, isAnalyzing := true,
    showResult := false, analysisResultSet := false,
    currentAnalysisIndex := 0, isSequenceRunning := true,
    toasts := [], callsMade := 0 }

/-- The automatic-progression effect (lines 54–77): does nothing while the
sequence is not running; clears the running flag when the index is past the
end; advances the index and starts the next agent only when the current
agent's progress is 100 and a next agent exists. -/
def progressionStep (st : GState) : GState × Option GAgent :=
  if ¬ st.isSequenceRunning then (st, none)
  else
    match gAgentSequence.get? st.currentAnalysisIndex with
    | none => ({ st with isSequenceRunning := false }, none)
    | some cur =>
      match gAgentSequence.get? (st.currentAnalysisIndex + 1) with
      | none => (st, none)
      | some nxt =>
        if (st.agentStates cur).progress = 100 then
          ({ st with currentAnalysisIndex := st.currentAnalysisIndex + 1 },
           some nxt)
        else (st, none)

/-- C3.  Retry bound: with a valid key and a fresh agent record, after
exactly `N` consecutive external-call failures (`N` the configured
`MAX_RETRIES` bound): the retry counter reaches the bound with no results
and progress 0 (the run ends in the failed terminal state), the sequence
halts (`isSequenceRunning` cleared) with the user-visible failure toast,
exactly `N` external calls were made, any later invocation for this agent is
blocked unchanged by the entry guard (the error is terminal for the session
until reset), the progression effect starts no subsequent agent, and — the
bound is exact — after fewer than `N` failures the sequence is still
running. -/
theorem retry_bound_halts (N : Nat) (key : Option String)
    (hkey : checkApiKey key = true) (a : GAgent) (st : GState)
    (hrc : (st.agentStates a).retryCount = 0)
    (hres : (st.agentStates a).hasResults = false) (hN : 0 < N) :
    ((runAnalysis N key a (List.replicate N .fail) st).agentStates a).retryCount
      = N ∧
    ((runAnalysis N key a (List.replicate N .fail) st).agentStates a).hasResults
      = false ∧
    ((runAnalysis N key a (List.replicate N .fail) st).agentStates a).progress
      = 0 ∧
    (runAnalysis N key a (List.replicate N .fail) st).isSequenceRunning
      = false ∧
    (runAnalysis N key a (List.replicate N .fail) st).callsMade
      = st.callsMade + N ∧
    (runAnalysis N key a (List.replicate N .fail) st).toasts
      = st.toasts ++ [failToastMsg a] ∧
    (∀ (outs : List CallOutcome) (st₂ : GState),
      (st₂.agentStates a).retryCount = N →
        runAnalysis N key a outs st₂
          = { st₂ with isSequenceRunning := false,
                       toasts := st₂.toasts ++ [exhaustToastMsg a N] }) ∧
    progressionStep (runAnalysis N key a (List.replicate N .fail) st)
      = (runAnalysis N key a (List.replicate N .fail) st, none) ∧
    (∀ k, k < N →
      (runAnalysis N key a (List.replicate k .fail) st).isSequenceRunning
        = st.isSequenceRunning) := by
  have hkey' : apiKeyToast key = none := by
    simpa [checkApiKey, Option.isNone_iff_eq_none] using hkey
  obtain ⟨c1, c2, c3, c4, c5, c6, c7⟩ :=
    runAnalysis_fail_exhaust N key hkey' a N st hN (by omega)
  refine ⟨by rw [c1], by rw [c1]; exact hres, by rw [c1], c3, c6, c7, ?_, ?_, ?_⟩
  · intro outs st₂ h₂
    rw [runAnalysis, hkey', if_pos (by omega)]
  · simp [progressionStep, c3]
  · intro k hk
    exact (runAnalysis_fail_pending N key hkey' a k st (by omega)).2

/-- Witness for C3: bound 3 (the fixed retry count the repository's own
overview describes), a well-formed key, the `jtbd` agent, the fresh
post-`handleAnalyze` state. -/
theorem retry_bound_halts_witness :
    checkApiKey (some "sk-0000000000000000000000000000000000000") = true ∧
    ((runAnalysis 3 (some "sk-0000000000000000000000000000000000000") .jtbd
        (List.replicate 3 .fail) freshGState).agentStates .jtbd).retryCount
      = 3 ∧
    (runAnalysis 3 (some "sk-0000000000000000000000000000000000000") .jtbd
        (List.replicate 3 .fail) freshGState).isSequenceRunning = false :=
  ⟨by decide,
    (retry_bound_halts 3 (some "sk-0000000000000000000000000000000000000")
      (by decide) .jtbd freshGState rfl rfl (by decide)).1,
    (retry_bound_halts 3 (some "sk-0000000000000000000000000000000000000")
      (by decide) .jtbd freshGState rfl rfl (by decide)).2.2.2.1⟩

/-- C8.  Missing or invalid credential is fatal immediately: when
`checkApiKey` rejects the key (missing, empty, bad prefix, or too short),
`runAnalysisRef.current` emits the validation toast and resets the entire
analysis state at once — no external call is made, the retry counter stays
0, and the sequence-running flag is down, for ANY agent and any pending
outcomes.  On the `OpportunityEvaluation` page, the guard of
`processWithAgent` likewise blocks every agent except the keyless
`longContextChunking` when the stored key is empty. -/
theorem missing_credential_fatal (N : Nat) (key : Option String) (t : String)
    (ht : apiKeyToast key = some t) (a : GAgent) (st : GState)
    (outs : List CallOutcome) :
    runAnalysis N key a outs st
      = resetAnalysisState { st with toasts := st.toasts ++ [t] } ∧
    (runAnalysis N key a outs st).callsMade = st.callsMade ∧
    (runAnalysis N key a outs st).isSequenceRunning = false ∧
    (runAnalysis N key a outs st).toasts = st.toasts ++ [t] ∧
    ((runAnalysis N key a outs st).agentStates a).retryCount = 0 ∧
    checkApiKey key = false ∧
    (∀ b : AgentId, b ≠ AgentId.longContextChunking →
      processWithAgentEntry "" b = .blockedMissingKey) := by
  have hrw : runAnalysis N key a outs st
      = resetAnalysisState { st with toasts := st.toasts ++ [t] } := by
    rw [runAnalysis, ht]
  refine ⟨hrw, ?_, ?_, ?_, ?_, ?_, ?_⟩
  · rw [hrw]; rfl
  · rw [hrw]; rfl
  · rw [hrw]; rfl
  · rw [hrw]; simp [resetAnalysisState, initialAgentRun]
  · simp [checkApiKey, ht]
  · intro b hb
    simp [processWithAgentEntry, hb]

/-- Witness for C8: the absent key (`localStorage.getItem` returned null),
the `curse` agent, the fresh state, one pending successful outcome. -/
theorem missing_credential_fatal_witness :
    apiKeyToast none
      = some "OpenAI API key not found. Please set your API key in the settings." ∧
    (runAnalysis 3 none .curse [.ok] freshGState).callsMade = 0 ∧
    (runAnalysis 3 none .curse [.ok] freshGState).isSequenceRunning = false :=
  ⟨rfl,
    (missing_credential_fatal 3 none
      "OpenAI API key not found. Please set your API key in the settings."
      rfl .curse freshGState [.ok]).2.1,
    (missing_credential_fatal 3 none
      "OpenAI API key not found. Please set your API key in the settings."
      rfl .curse freshGState [.ok]).2.2.1⟩

end Grade

end DemandScan
